import Mathlib

/-!
Verification development for the CLDR plural-rule evaluation engine
(`src/CLDRPluralRuleParser.js`).

The engine is a backtracking recursive-descent parser fused with semantic
evaluation, over a shared cursor into the rule string.  We embed it
shallowly:

* JavaScript values that flow through the combinators are modelled by
  `JSVal` (numbers as `Option ℚ`, where `none` stands for `NaN`; strings as
  `List Char`; booleans; arrays; `undefined`).  All numeric inputs that the
  claims exercise are exactly representable, so `ℚ` arithmetic coincides
  with IEEE-754 double arithmetic at every point where this development
  evaluates it.
* A parser is a function from the rule text and a cursor position to a
  `PRes`: success with a value and a new position, failure with the
  position the failing parser left the shared cursor at, or `abort`.
  `abort` is not a JavaScript outcome: it is the out-of-fuel marker of the
  two recursive productions (`condition` and `rangeList`) and of the
  `nOrMore` loop, and it propagates through every combinator, so a run that
  ends in `ok` or `fail` is exactly a terminating JavaScript run.
* `parseInt` applied to a JavaScript number goes through the number's
  string form; `jsNumToString` produces the plain decimal expansion, which
  agrees with `Number::toString` on every value this development evaluates
  it at (short finite decimal expansions; no exponent notation arises).
* The dead code of the source (`decimal`, `samples`/`sampleRangeTail`,
  which reference an undefined `samples` and are never invoked) is not
  modelled.
-/

namespace CLDR

/-- A JavaScript number: `none` models `NaN`, `some q` a finite value. -/
abbrev JSNum := Option ℚ

/-- The JavaScript values that flow through the parser combinators. -/
inductive JSVal where
  | num (q : JSNum)
  | str (s : List Char)
  | bool (b : Bool)
  | arr (l : List JSVal)
  | undefined
  deriving Repr

/-- Outcome of running a parser: success (value and new cursor), failure
(cursor the failing parser left behind), or out-of-fuel `abort`. -/
inductive PRes (α : Type) where
  | ok (v : α) (pos : Nat)
  | fail (pos : Nat)
  | abort
  deriving Repr

/-- Decide whether a parser outcome is a success. -/
def PRes.isOk {α : Type} : PRes α → Bool
  | .ok _ _ => true
  | _ => false

/-- A parser: rule text and cursor in, `PRes` out.  This models the
zero-argument JavaScript closures that read and write the shared `pos`. -/
abbrev Parser (α : Type) := List Char → Nat → PRes α

/-- JavaScript truthiness for the values of this grammar: `0`, `NaN`, the
empty string, `false` and `undefined` are falsy; arrays are always truthy. -/
def jsTruthy : JSVal → Bool
  | .num (some q) => decide (q ≠ 0)
  | .num none => false
  | .str s => !s.isEmpty
  | .bool b => b
  | .arr _ => true
  | .undefined => false

/-- JavaScript strict equality `===` on the values that reach it in this
grammar.  `NaN === x` is false; values of different types are never
strictly equal; arrays compare by reference and the code never compares an
array with itself, so `arr`/`arr` is `false`. -/
def jsStrictEq : JSVal → JSVal → Bool
  | .num (some a), .num (some b) => decide (a = b)
  | .str a, .str b => decide (a = b)
  | .bool a, .bool b => decide (a = b)
  | .undefined, .undefined => true
  | _, _ => false

/-- JavaScript array indexing `l[i]`: `undefined` out of bounds. -/
def jsIdx (l : List JSVal) (i : Nat) : JSVal := l.getD i .undefined

/-- Indexing a value that is expected to be an array (`result[1][0]`);
indexing a non-array property access yields `undefined` here. -/
def jsIdxV : JSVal → Nat → JSVal
  | .arr l, i => jsIdx l i
  | _, _ => .undefined

/-- The elements of a value expected to be an array (loop subjects such as
`range_list`); non-arrays do not occur at those code points. -/
def jsToArr : JSVal → List JSVal
  | .arr l => l
  | _ => []

/-- JavaScript `Array.prototype.concat` with a single argument: an array
argument contributes its elements, any other value itself. -/
def jsConcat (l : List JSVal) : JSVal → List JSVal
  | .arr a => l ++ a
  | x => l ++ [x]

/-- JavaScript `&&` restricted to the values it meets here. -/
def jsAnd (a b : JSVal) : JSVal := if jsTruthy a then b else a

/-- JavaScript `||` restricted to the values it meets here. -/
def jsOr (a b : JSVal) : JSVal := if jsTruthy a then a else b

/-- Truncation toward zero, the rounding of `parseInt` on in-range numbers
and of JavaScript's `%`. -/
def jsTrunc (q : ℚ) : ℤ := if 0 ≤ q then ⌊q⌋ else -⌊-q⌋

/-- JavaScript remainder `a % b` on numbers: sign of the dividend,
`NaN` on a `NaN` operand or zero divisor. -/
def jsRem : JSNum → JSNum → JSNum
  | some a, some b => if b = 0 then none else some (a - b * (jsTrunc (a / b) : ℚ))
  | _, _ => none

/-- JavaScript `+` on two numbers. -/
def jsAdd : JSNum → JSNum → JSNum
  | some a, some b => some (a + b)
  | _, _ => none

/-- The `length` property: defined on strings and arrays, `undefined` on a
number (the slip in the source's `w`). -/
def jsGetLength : JSVal → JSVal
  | .str s => .num (some (s.length : ℚ))
  | .arr l => .num (some (l.length : ℚ))
  | _ => .undefined

/-- The whitespace class of the regular expression `\s` and of
`String.prototype.trim` (the code points that can occur here). -/
def jsIsSpace (c : Char) : Bool :=
  c = ' ' || c = '\t' || c = '\n' || c = '\r' ||
  c = (Char.ofNat 11) || c = (Char.ofNat 12) || c = (Char.ofNat 160) ||
  c = (Char.ofNat 0x2028) || c = (Char.ofNat 0x2029) || c = (Char.ofNat 0xfeff)

/-- Numeric value of a decimal digit character. -/
def digitVal (c : Char) : ℤ := ((c.toNat - 48 : Nat) : ℤ)

/-- Value of a nonempty decimal digit string. -/
def digitsToInt (l : List Char) : ℤ := l.foldl (fun acc c => acc * 10 + digitVal c) 0

/-- JavaScript `parseInt` (radix 10) on a string: skip whitespace, optional
sign, longest digit prefix; `NaN` when no digit follows. -/
def parseIntCore (s : List Char) : JSNum :=
  let s1 := s.dropWhile jsIsSpace
  let p : Bool × List Char :=
    match s1 with
    | '-' :: r => (true, r)
    | '+' :: r => (false, r)
    | r => (false, r)
  let ds := p.2.takeWhile Char.isDigit
  match ds with
  | [] => none
  | _ => some (((if p.1 then -digitsToInt ds else digitsToInt ds) : ℤ) : ℚ)

/-- Fractional digits of `r ∈ [0,1)`, at most `fuel` of them.  Twenty
digits cover every value this development evaluates. -/
def fracDigitsAux : Nat → ℚ → List Char
  | 0, _ => []
  | fuel + 1, r =>
    if r = 0 then []
    else
      let d : ℤ := ⌊r * 10⌋
      Char.ofNat (48 + d.toNat) :: fracDigitsAux fuel (r * 10 - (d : ℚ))

/-- JavaScript `Number::toString` modelled as the plain decimal expansion;
it agrees with the engine's behaviour on every value this development
evaluates it at (no exponent notation, short expansions). -/
def jsNumToString (q : ℚ) : List Char :=
  let a := if q < 0 then -q else q
  let ip : ℤ := ⌊a⌋
  let fr := a - (ip : ℚ)
  (if q < 0 then ['-'] else []) ++ (Nat.repr ip.toNat).data ++
    (if fr = 0 then [] else '.' :: fracDigitsAux 20 fr)

/-- JavaScript `parseInt` on an arbitrary value: strings parse directly,
numbers via their string form; `undefined`, booleans and `NaN` give `NaN`.
Arrays never reach `parseInt` in this grammar. -/
def jsParseInt : JSVal → JSNum
  | .str s => parseIntCore s
  | .num (some q) => parseIntCore (jsNumToString q)
  | _ => none

/-- JavaScript `>=` on the (numeric) operands it meets here; any `NaN`
comparison is false. -/
def jsGE : JSVal → JSVal → Bool
  | .num (some a), .num (some b) => decide (b ≤ a)
  | _, _ => false

/-- JavaScript `<` on the (numeric) operands it meets here; any `NaN`
comparison is false. -/
def jsLT : JSVal → JSVal → Bool
  | .num (some a), .num (some b) => decide (a < b)
  | _, _ => false

/-- The `x || 0` idiom of the source: the left value when truthy, else `0`. -/
def jsOrZero (v : JSVal) : JSVal := if jsTruthy v then v else .num (some 0)

/-- The regex replacement `.replace(/0$/, '')`: remove one trailing `'0'`
(the pattern is not global, so at most one character is removed). -/
def replaceTrailingZero (s : List Char) : List Char :=
  if s.getLast? = some '0' then s.dropLast else s

/-- JavaScript `String.prototype.indexOf` for a single character: first
index, or `-1` when absent. -/
def jsIndexOfChar (s : List Char) (c : Char) : ℤ :=
  match s.findIdx? (fun d => d = c) with
  | some i => (i : ℤ)
  | none => -1

/-- JavaScript `substr(0, len)`: a negative length is treated as zero. -/
def jsSubstr0 (s : List Char) (len : ℤ) : List Char := s.take len.toNat

/-- JavaScript `String.prototype.trim`. -/
def jsTrim (s : List Char) : List Char :=
  ((s.dropWhile jsIsSpace).reverse.dropWhile jsIsSpace).reverse

/-! ## Combinator layer (source lines 89-161)

`choice`: try each parser in order, first success wins; each sub-parser is
responsible for restoring the cursor on its own failure, so the next
alternative starts at the position the failing one left.

`sequence`: records the cursor, runs each sub-parser; on any failure the
cursor is restored to the recorded position and the whole sequence fails.

`nOrMore`: runs `p` until it fails; fails (restoring the entry cursor)
when fewer than `n` repetitions succeeded.  The JavaScript `while` loop is
given fuel; exhausting it aborts the whole run. -/

/-- `choice(parserSyntax)` of the source. -/
def choice {α : Type} : List (Parser α) → Parser α
  | [], _, pos => .fail pos
  | p :: ps, rule, pos =>
    match p rule pos with
    | .ok v p2 => .ok v p2
    | .fail p2 => choice ps rule p2
    | .abort => .abort

/-- Body of `sequence`: `originalPos` is the cursor recorded on entry. -/
def seqGo (rule : List Char) (originalPos : Nat) :
    List (Parser JSVal) → Nat → PRes (List JSVal)
  | [], pos => .ok [] pos
  | p :: ps, pos =>
    match p rule pos with
    | .ok v p2 =>
      match seqGo rule originalPos ps p2 with
      | .ok l p3 => .ok (v :: l) p3
      | .fail _ => .fail originalPos
      | .abort => .abort
    | .fail _ => .fail originalPos
    | .abort => .abort

/-- `sequence(parserSyntax)` of the source. -/
def sequence (ps : List (Parser JSVal)) : Parser (List JSVal) :=
  fun rule pos => seqGo rule pos ps pos

/-- The `while` loop of `nOrMore`: collect successes of `p` until it
fails; the exit cursor is whatever the final failing run of `p` left. -/
def nOrMoreRun (p : Parser JSVal) (rule : List Char) :
    Nat → Nat → PRes (List JSVal)
  | 0, _ => .abort
  | fuel + 1, pos =>
    match p rule pos with
    | .fail p2 => .ok [] p2
    | .ok v p2 =>
      match nOrMoreRun p rule fuel p2 with
      | .ok l p3 => .ok (v :: l) p3
      | .fail p3 => .fail p3
      | .abort => .abort
    | .abort => .abort

/-- `nOrMore(n, p)` of the source (with loop fuel). -/
def nOrMore (fuel n : Nat) (p : Parser JSVal) : Parser JSVal := fun rule pos =>
  match nOrMoreRun p rule fuel pos with
  | .ok l p2 => if l.length < n then .fail pos else .ok (.arr l) p2
  | .fail p2 => .fail p2
  | .abort => .abort

/-- `makeStringParser(s)` of the source: succeed iff the rule text at the
cursor starts with `s`, advancing by its length. -/
def makeStringParser (s : List Char) : Parser JSVal := fun rule pos =>
  if (rule.drop pos).take s.length = s then .ok (.str s) (pos + s.length)
  else .fail pos

/-- `makeRegexParser` of the source, for the two anchored character-class
regexes the grammar uses (`/^\s+/` and `/^\d+/`): longest nonempty prefix
of characters satisfying `cls`. -/
def makeRegexParser (cls : Char → Bool) : Parser JSVal := fun rule pos =>
  match (rule.drop pos).takeWhile cls with
  | [] => .fail pos
  | m => .ok (.str m) (pos + m.length)

/-! ## Token parsers (source lines 58-80) -/

/-- `whitespace = makeRegexParser(/^\s+/)`. -/
def whitespace : Parser JSVal := makeRegexParser jsIsSpace

/-- `value = makeRegexParser(/^\d+/)`. -/
def value : Parser JSVal := makeRegexParser Char.isDigit

def _n_ : Parser JSVal := makeStringParser ['n']
def _i_ : Parser JSVal := makeStringParser ['i']
def _f_ : Parser JSVal := makeStringParser ['f']
def _t_ : Parser JSVal := makeStringParser ['t']
def _v_ : Parser JSVal := makeStringParser ['v']
def _w_ : Parser JSVal := makeStringParser ['w']
def _is_ : Parser JSVal := makeStringParser ("is".data)
def _isnot_ : Parser JSVal := makeStringParser ("is not".data)
def _isnot_sign_ : Parser JSVal := makeStringParser ("!=".data)
def _equal_ : Parser JSVal := makeStringParser ['=']
def _mod_ : Parser JSVal := makeStringParser ("mod".data)
def _percent_ : Parser JSVal := makeStringParser ['%']
def _not_ : Parser JSVal := makeStringParser ("not".data)
def _in_ : Parser JSVal := makeStringParser ("in".data)
def _within_ : Parser JSVal := makeStringParser ("within".data)
def _range_ : Parser JSVal := makeStringParser ("..".data)
def _comma_ : Parser JSVal := makeStringParser [',']
def _or_ : Parser JSVal := makeStringParser ("or".data)
def _and_ : Parser JSVal := makeStringParser ("and".data)

/-- Map the success value of a production's `sequence` result, passing
failure and abort through (the `if (result !== null)` pattern). -/
def pmap (fn : List JSVal → JSVal) : PRes (List JSVal) → PRes JSVal
  | .ok l p2 => .ok (fn l) p2
  | .fail p2 => .fail p2
  | .abort => .abort

/-! ## Operand evaluators (source lines 163-245)

Each matches its one-letter token and, on a match, computes a value from
the externally supplied `number`.  The derivations are transcribed with
JavaScript's coercions intact:

* `i`: `parseInt(number)` (through the number's string form);
* `n`: `parseFloat(number)`, the identity on a finite number;
* `f`: `number % 1`;
* `t`: `parseInt(String(number % 1).replace(/0$/, '')) || 0`;
* `v`: `parseInt(number % 1) + ''.length` — the length of the *empty
  string literal* (which is `0`), not of the parsed text;
* `w`: `parseInt(String(number % 1).replace(/0$/, '')).length || 0` —
  `.length` of a number is `undefined`, so `|| 0` yields `0`; note that
  `w` matches its token with `_v_`, exactly as the source does. -/

/-- Pass a string-parser outcome through, replacing the value on success. -/
def tokenThen (tok : Parser JSVal) (v : JSVal) : Parser JSVal := fun rule pos =>
  match tok rule pos with
  | .ok _ p2 => .ok v p2
  | .fail p2 => .fail p2
  | .abort => .abort

/-- Operand `i`: integer digits of `n` (source line 166). -/
def i (number : ℚ) : Parser JSVal :=
  tokenThen _i_ (.num (jsParseInt (.num (some number))))

/-- Operand `n`: the source number itself (source line 180). -/
def n (number : ℚ) : Parser JSVal :=
  tokenThen _n_ (.num (some number))

/-- Operand `f` (source line 194): `number % 1`. -/
def f (number : ℚ) : Parser JSVal :=
  tokenThen _f_ (.num (jsRem (some number) (some 1)))

/-- Operand `t` (source line 208). -/
def t (number : ℚ) : Parser JSVal :=
  tokenThen _t_
    (jsOrZero (.num (parseIntCore (replaceTrailingZero
      (jsNumToString (number - (jsTrunc number : ℚ)))))))

/-- Operand `v` (source line 222): `parseInt(number % 1) + ''.length`. -/
def v (number : ℚ) : Parser JSVal :=
  tokenThen _v_
    (.num (jsAdd (jsParseInt (.num (some (number - (jsTrunc number : ℚ)))))
      (some ((([] : List Char).length : ℚ)))))

/-- Operand `w` (source line 236); its token matcher is `_v_`. -/
def w (number : ℚ) : Parser JSVal :=
  tokenThen _v_
    (jsOrZero (jsGetLength (.num (parseIntCore (replaceTrailingZero
      (jsNumToString (number - (jsTrunc number : ℚ))))))))

/-- `operand = choice([n, i, f, t, v, w])` (source line 248). -/
def operand (number : ℚ) : Parser JSVal :=
  choice [n number, i number, f number, t number, v number, w number]

/-- `mod` (source line 253). -/
def mod (number : ℚ) : Parser JSVal := fun rule pos =>
  pmap (fun l => .num (jsRem (jsParseInt (jsIdx l 0)) (jsParseInt (jsIdx l 4))))
    (sequence [operand number, whitespace, choice [_mod_, _percent_], whitespace, value]
      rule pos)

/-- `expression = choice([mod, operand])` (source line 251). -/
def expression (number : ℚ) : Parser JSVal :=
  choice [mod number, operand number]

/-- `not` (source line 263): whitespace then the `not` keyword, yielding
the keyword string. -/
def not : Parser JSVal := fun rule pos =>
  pmap (fun l => jsIdx l 1) (sequence [whitespace, _not_] rule pos)

/-- `is` (source line 274): `result[0] === parseInt(result[4], 10)`. -/
def is (number : ℚ) : Parser JSVal := fun rule pos =>
  pmap (fun l => .bool (jsStrictEq (jsIdx l 0) (.num (jsParseInt (jsIdx l 4)))))
    (sequence [expression number, whitespace, _is_, whitespace, value] rule pos)

/-- `isnot` (source line 285): `result[0] !== parseInt(result[4], 10)`. -/
def isnot (number : ℚ) : Parser JSVal := fun rule pos =>
  pmap (fun l => .bool (!jsStrictEq (jsIdx l 0) (.num (jsParseInt (jsIdx l 4)))))
    (sequence [expression number, whitespace, choice [_isnot_, _isnot_sign_],
      whitespace, value] rule pos)

/-- The `for` loop of `range` (source line 345): `for (i = left; i <= right;
i++) array.push(i)`, expressed with its precomputed iteration count
`⌊right - left⌋ + 1` (clamped at zero), which is exactly how many times the
loop condition holds. -/
def jsRangeForAux : Nat → ℚ → List ℚ
  | 0, _ => []
  | k + 1, a => a :: jsRangeForAux k (a + 1)

/-- The list the `range` loop pushes for bounds `a` and `b`. -/
def jsRangeForQ (a b : ℚ) : List ℚ := jsRangeForAux (⌊b - a⌋ + 1).toNat a

/-- The array built by `range` from the two parsed bounds; a `NaN` bound
never satisfies the loop condition. -/
def jsRangeArray : JSNum → JSNum → List JSVal
  | some a, some b => (jsRangeForQ a b).map (fun q => .num (some q))
  | _, _ => []

/-- `range` (source line 337): `value '..' value`, expanded eagerly. -/
def range : Parser JSVal := fun rule pos =>
  pmap (fun l => .arr (jsRangeArray (jsParseInt (jsIdx l 0)) (jsParseInt (jsIdx l 2))))
    (sequence [value, _range_, value] rule pos)

/-- `rangeList` (source line 312) with fuel for the mutual recursion
through `rangeTail`; the inner lambda is `rangeTail` (source line 326)
applied at one less fuel. -/
def rangeList : Nat → Parser JSVal
  | 0 => fun _ _ => .abort
  | fu + 1 => fun rule pos =>
    match sequence [choice [range, value],
        nOrMore (fu + 1) 0 (fun rule pos =>
          pmap (fun l => jsIdx l 1) (sequence [_comma_, rangeList fu] rule pos))]
        rule pos with
    | .ok l p2 =>
      let resultList := jsConcat [] (jsIdx l 0)
      let tail := jsIdxV (jsIdx l 1) 0
      .ok (.arr (if jsTruthy tail then jsConcat resultList tail else resultList)) p2
    | .fail p2 => .fail p2
    | .abort => .abort

/-- `rangeTail` (source line 326): `',' rangeList`, yielding the inner
range list's value. -/
def rangeTail (fu : Nat) : Parser JSVal := fun rule pos =>
  pmap (fun l => jsIdx l 1) (sequence [_comma_, rangeList fu] rule pos)

/-- `not_in` (source line 295): `expr '!=' range_list`, true iff no element
of the expanded list strictly equals the expression's value. -/
def not_in (number : ℚ) (fu : Nat) : Parser JSVal := fun rule pos =>
  pmap (fun l => .bool ((jsToArr (jsIdx l 4)).all
      (fun e => !jsStrictEq (.num (jsParseInt e)) (jsIdx l 0))))
    (sequence [expression number, whitespace, _isnot_sign_, whitespace, rangeList fu]
      rule pos)

/-- `_in` (source line 354): membership of the expression's value in the
expanded list, negated by a parsed `not`. -/
def _in (number : ℚ) (fu : Nat) : Parser JSVal := fun rule pos =>
  pmap (fun l =>
      .bool (if (jsToArr (jsIdx l 5)).any
          (fun e => jsStrictEq (.num (jsParseInt e)) (jsIdx l 0)) then
        !jsStrictEq (jsIdx (jsToArr (jsIdx l 1)) 0) (.str ("not".data))
      else
        jsStrictEq (jsIdx (jsToArr (jsIdx l 1)) 0) (.str ("not".data))))
    (sequence [expression number, nOrMore fu 0 not, whitespace,
      choice [_in_, _equal_], whitespace, rangeList fu] rule pos)

/-- `within` (source line 375): interval test against the first and last
listed bounds, negated by a parsed `not`. -/
def within (number : ℚ) (fu : Nat) : Parser JSVal := fun rule pos =>
  pmap (fun l =>
      let rl := jsToArr (jsIdx l 5)
      .bool (if jsGE (jsIdx l 0) (.num (jsParseInt (jsIdx rl 0))) &&
          jsLT (jsIdx l 0) (.num (jsParseInt (jsIdx rl (rl.length - 1)))) then
        !jsStrictEq (jsIdx (jsToArr (jsIdx l 1)) 0) (.str ("not".data))
      else
        jsStrictEq (jsIdx (jsToArr (jsIdx l 1)) 0) (.str ("not".data))))
    (sequence [expression number, nOrMore fu 0 not, whitespace, _within_,
      whitespace, rangeList fu] rule pos)

/-- `relation = choice([is, not_in, isnot, _in, within])` (source line 392). -/
def relation (number : ℚ) (fu : Nat) : Parser JSVal :=
  choice [is number, not_in number fu, isnot number, _in number fu, within number fu]

/-- The tail of `condition` (source lines 426-429): a successful sequence
yields its first element, the no-match sentinel becomes the *value*
`false` at the restored cursor. -/
def condWrap : PRes (List JSVal) → PRes JSVal
  | .ok l p2 => .ok (jsIdx l 0) p2
  | .fail p2 => .ok (.bool false) p2
  | .abort => .abort

/-- `condition` (source line 424) with fuel for the mutual recursion: the
two inner lambdas are `and` (source line 394) and `or` (source line 404),
which recurse into `condition` at one less fuel.  When the inner sequence
fails, `condition` returns the *value* `false` at the restored cursor — it
does not propagate the failure. -/
def condition (number : ℚ) : Nat → Parser JSVal
  | 0 => fun _ _ => .abort
  | fu + 1 => fun rule pos =>
    condWrap (sequence [choice [
        (fun rule pos =>
          pmap (fun l => jsAnd (jsIdx l 0) (jsIdx l 4))
            (sequence [relation number (fu + 1), whitespace, _and_, whitespace,
              condition number fu] rule pos)),
        (fun rule pos =>
          pmap (fun l => jsOr (jsIdx l 0) (jsIdx l 4))
            (sequence [relation number (fu + 1), whitespace, _or_, whitespace,
              condition number fu] rule pos)),
        relation number (fu + 1)]] rule pos)

/-- `start` (source line 432). -/
def start (number : ℚ) (fu : Nat) : Parser JSVal := condition number fu

/-- The sample-annotation truncation of the driver (source line 45):
`rule.substr(0, rule.indexOf('@')).trim()`. -/
def stripRule (rule : String) : List Char :=
  jsTrim (jsSubstr0 rule.data (jsIndexOfChar rule.data '@'))

/-- Observable outcome of one driver call: the returned value or the
thrown parse error, plus whether the incomplete-parse warning was logged. -/
structure PRPOut where
  result : Except (Nat × List Char) JSVal
  warning : Bool
  deriving Repr

/-- Decide whether a driver result is a normal return. -/
def exceptOk {ε α : Type} : Except ε α → Bool
  | .ok _ => true
  | .error _ => false

/-- The driver `pluralRuleParser` (source line 21): strip the sample
annotation, return `true` for an empty rule, otherwise run `start` with
fuel `length + 1` (ample for every terminating run; `none` is the
out-of-fuel surrogate for a diverging run and never occurs on the inputs
evaluated here).  A `null` parse result throws; otherwise the parsed value
is returned, with the warning flag recording the incomplete-parse log. -/
def pluralRuleParser (rule : String) (number : ℚ) : Option PRPOut :=
  if (stripRule rule).length = 0 then
    some { result := .ok (.bool true), warning := false }
  else
    match start number ((stripRule rule).length + 1) (stripRule rule) 0 with
    | .ok res p2 =>
      some { result := .ok res, warning := decide (p2 ≠ (stripRule rule).length) }
    | .fail p2 => some { result := .error (p2, stripRule rule), warning := false }
    | .abort => none

/-! ## Driver-level lemmas -/

/-- A rule without `'@'` is truncated to the empty string: `indexOf`
returns `-1` and `substr(0, -1)` is empty. -/
lemma stripRule_of_no_at (rule : String) (h : '@' ∉ rule.data) : stripRule rule = [] := by
  have hfind : rule.data.findIdx? (fun d => d = '@') = none := by
    rw [List.findIdx?_eq_none_iff]
    intro c hc
    simp only [decide_eq_false_iff_not]
    intro heq
    exact h (heq ▸ hc)
  simp [stripRule, jsIndexOfChar, hfind, jsSubstr0, jsTrim]

/-- `condition` never reports failure: the `return false` at source line
429 converts the no-match sentinel into the boolean value `false`. -/
lemma condWrap_ne_fail (r : PRes (List JSVal)) (p2 : Nat) : condWrap r ≠ .fail p2 := by
  cases r <;> simp [condWrap]

lemma condition_ne_fail (number : ℚ) (fu : Nat) (rule : List Char) (pos p2 : Nat) :
    condition number fu rule pos ≠ .fail p2 := by
  cases fu with
  | zero => intro h; exact PRes.noConfusion h
  | succ fu =>
    unfold condition
    exact condWrap_ne_fail _ _

/-- C1 — the code's actual behaviour on `"n is 1"`: the rule contains no
`'@'`, so the annotation-truncation step wipes it and the driver returns
`true` for every number. -/
theorem c1_n_is_1_always_true (number : ℚ) :
    pluralRuleParser "n is 1" number =
      some { result := .ok (.bool true), warning := false } := by
  rfl

/-- C2 — a rule with no `'@'` is reduced to the empty string before
parsing, and the driver returns `true` for every number. -/
theorem c2_no_at_rule_always_true (rule : String) (number : ℚ) (h : '@' ∉ rule.data) :
    stripRule rule = [] ∧
      pluralRuleParser rule number =
        some { result := .ok (.bool true), warning := false } := by
  refine ⟨stripRule_of_no_at rule h, ?_⟩
  simp [pluralRuleParser, stripRule_of_no_at rule h]

theorem c2_no_at_rule_always_true_witness :
    stripRule "n is 2" = [] ∧
      pluralRuleParser "n is 2" 7 =
        some { result := .ok (.bool true), warning := false } :=
  c2_no_at_rule_always_true "n is 2" 7 (by decide)

/-- C9 — an empty or whitespace-only rule evaluates to `true` for every
number (such a rule contains no `'@'`, so it is truncated to empty). -/
theorem c9_whitespace_rule_true (rule : String) (number : ℚ)
    (h : ∀ c ∈ rule.data, jsIsSpace c = true) :
    pluralRuleParser rule number =
      some { result := .ok (.bool true), warning := false } := by
  have hno : '@' ∉ rule.data := by
    intro hc
    have := h '@' hc
    simp [jsIsSpace] at this
  simp [pluralRuleParser, stripRule_of_no_at rule hno]

theorem c9_whitespace_rule_true_witness :
    pluralRuleParser "  " 4 = some { result := .ok (.bool true), warning := false } :=
  c9_whitespace_rule_true "  " 4 (by decide)

/-- C3 — the code's actual behaviour where the claim expects a raised
error: a rule that is non-empty after stripping and on which `condition`
matches no prefix produces the boolean `false` (with the incomplete-parse
warning), and every terminating driver run returns normally — the `throw`
at source line 444 is unreachable because `condition` never yields the
no-match sentinel. -/
theorem c3_total_parse_failure_returns_false :
    pluralRuleParser "x @" 5 = some { result := .ok (.bool false), warning := true } ∧
      ∀ (rule : String) (number : ℚ) (out : PRPOut),
        pluralRuleParser rule number = some out → exceptOk out.result = true := by
  constructor
  · rfl
  · intro rule number out h
    unfold pluralRuleParser at h
    split at h
    · simp only [Option.some.injEq] at h
      subst h
      rfl
    · split at h
      · simp only [Option.some.injEq] at h
        subst h
        rfl
      · exact absurd (by assumption) (condition_ne_fail _ _ _ _ _)
      · cases h

theorem c3_total_parse_failure_returns_false_witness :
    exceptOk (PRPOut.result { result := .ok (.bool false), warning := true }) = true :=
  c3_total_parse_failure_returns_false.2 "y @" 3
    { result := .ok (.bool false), warning := true } (by rfl)

/-- C10 — when the top-level parse succeeds but the cursor is not at
end-of-text, the driver still returns the value the parse computed; the
incomplete-parse diagnostic is recorded in the warning flag and never
alters the returned result. -/
theorem c10_partial_parse_keeps_result (rule : String) (number : ℚ) (res : JSVal)
    (p2 : Nat) (hne : stripRule rule ≠ [])
    (hparse : start number ((stripRule rule).length + 1) (stripRule rule) 0 = .ok res p2)
    (hpos : p2 ≠ (stripRule rule).length) :
    pluralRuleParser rule number = some { result := .ok res, warning := true } := by
  have hlen : (stripRule rule).length ≠ 0 := by
    simpa [List.length_eq_zero] using hne
  unfold pluralRuleParser
  rw [if_neg hlen, hparse]
  simp [hpos]

theorem c10_partial_parse_keeps_result_witness :
    pluralRuleParser "n is 1 x@" 1 = some { result := .ok (.bool true), warning := true } :=
  c10_partial_parse_keeps_result "n is 1 x@" 1 (.bool true) 6 (by decide) (by rfl)
    (by decide)

/-- C4 — the code's actual operand values at the number `1.50` (the finite
double `3/2`): `f` yields `0.5` (instead of the claimed `50`), `t` yields
`0` (instead of `5`), `v` yields `0` (instead of `2`) and `w` — whose
token matcher reads `'v'` — yields `0` (instead of `1`). -/
theorem c4_operand_values_at_one_point_five :
    f (3 / 2) ['f'] 0 = .ok (.num (some (1 / 2))) 1 ∧
      t (3 / 2) ['t'] 0 = .ok (.num (some 0)) 1 ∧
      v (3 / 2) ['v'] 0 = .ok (.num (some 0)) 1 ∧
      w (3 / 2) ['v'] 0 = .ok (.num (some 0)) 1 := by
  refine ⟨?_, ?_, ?_, ?_⟩ <;> with_unfolding_all rfl

/-! ## Operand-layer lemmas (claim C5) -/

/-- Closed form of a one-character token parser followed by a value. -/
lemma tokenThen_single (c : Char) (val : JSVal) (rule : List Char) (pos : Nat) :
    tokenThen (makeStringParser [c]) val rule pos =
      if (rule.drop pos).take 1 = [c] then .ok val (pos + 1) else .fail pos := by
  by_cases h : (rule.drop pos).take 1 = [c] <;>
    simp [tokenThen, makeStringParser, h]

/-- `choice` only looks at the behaviour of the remaining alternatives:
lists with a shared prefix and pointwise-equal tails evaluate equally. -/
lemma choice_ext {α : Type} (shared t1 t2 : List (Parser α)) (rule : List Char)
    (h : ∀ pos, choice t1 rule pos = choice t2 rule pos) (pos : Nat) :
    choice (shared ++ t1) rule pos = choice (shared ++ t2) rule pos := by
  induction shared generalizing pos with
  | nil => exact h pos
  | cons p rest ih =>
    simp only [List.cons_append, choice]
    cases p rule pos <;> simp [ih]

/-- C5 — the `w` evaluator's token matcher is `_v_`: it succeeds exactly
when the text at the cursor is `'v'`; because `v` is listed before `w` in
the operand choice, dropping `w` from the choice changes nothing (its
derivation is unreachable); and at a cursor showing `'w'` the operand
production fails outright. -/
theorem c5_w_token_shadowed_by_v (number : ℚ) (rule : List Char) (pos : Nat) :
    ((w number rule pos).isOk = true ↔ (rule.drop pos).take 1 = ['v']) ∧
      operand number rule pos =
        choice [n number, i number, f number, t number, v number] rule pos ∧
      ((rule.drop pos).take 1 = ['w'] → operand number rule pos = .fail pos) := by
  refine ⟨?_, ?_, ?_⟩
  · by_cases h : (rule.drop pos).take 1 = ['v'] <;>
      simp [w, _v_, tokenThen_single, h, PRes.isOk]
  · have h : ∀ q, choice [v number, w number] rule q = choice [v number] rule q := by
      intro q
      by_cases hv : (rule.drop q).take 1 = ['v'] <;>
        simp [choice, v, w, _v_, tokenThen_single, hv]
    exact choice_ext [n number, i number, f number, t number]
      [v number, w number] [v number] rule h pos
  · intro h
    simp [operand, choice, n, i, f, t, v, w, _n_, _i_, _f_, _t_, _v_, _w_,
      tokenThen_single, h]

theorem c5_w_token_shadowed_by_v_witness : operand 0 ['w'] 0 = .fail 0 :=
  (c5_w_token_shadowed_by_v 0 ['w'] 0).2.2 (by decide)

/-! ## Cursor discipline of the combinators (claim C8) -/

/-- The cursor contract of one parser outcome relative to the entry
cursor: success never moves backward, failure restores it exactly, and
`abort` (the out-of-fuel surrogate, not a JavaScript outcome) is exempt. -/
def CursorOk {α : Type} (pos : Nat) : PRes α → Prop
  | .ok _ p2 => pos ≤ p2
  | .fail p2 => p2 = pos
  | .abort => True

/-- A well-behaved parser: every run satisfies the cursor contract. -/
def Wf {α : Type} (p : Parser α) : Prop := ∀ rule pos, CursorOk pos (p rule pos)

lemma wf_makeStringParser (s : List Char) : Wf (makeStringParser s) := by
  intro rule pos
  by_cases h : (rule.drop pos).take s.length = s <;>
    simp [makeStringParser, h, CursorOk]

@[simp] lemma cursorOk_ok {α : Type} (pos p2 : Nat) (val : α) :
    CursorOk pos (PRes.ok val p2) ↔ pos ≤ p2 := Iff.rfl

@[simp] lemma cursorOk_fail {α : Type} (pos p2 : Nat) :
    CursorOk pos (PRes.fail p2 : PRes α) ↔ p2 = pos := Iff.rfl

@[simp] lemma cursorOk_abort {α : Type} (pos : Nat) :
    CursorOk pos (PRes.abort : PRes α) := trivial

lemma seqGo_cursorOk (rule : List Char) (originalPos : Nat)
    (ps : List (Parser JSVal)) (pos : Nat) (h : ∀ p ∈ ps, Wf p)
    (hle : originalPos ≤ pos) : CursorOk originalPos (seqGo rule originalPos ps pos) := by
  induction ps generalizing pos with
  | nil => exact hle
  | cons p rest ih =>
    have hp := h p (List.mem_cons_self p rest) rule pos
    simp only [seqGo]
    cases hq : p rule pos with
    | ok val p2 =>
      rw [hq, cursorOk_ok] at hp
      have hrest := ih p2 (fun q hq2 => h q (List.mem_cons_of_mem p hq2))
        (le_trans hle hp)
      dsimp only
      cases hr : seqGo rule originalPos rest p2 with
      | ok l p3 => rw [hr, cursorOk_ok] at hrest; exact hrest
      | fail p3 => exact rfl
      | abort => exact trivial
    | fail p2 => exact rfl
    | abort => exact trivial

/-- The `nOrMore` loop never reports failure: it collects until the
sub-parser fails and then stops. -/
lemma nOrMoreRun_ne_fail (p : Parser JSVal) (rule : List Char) :
    ∀ fuel pos p3, nOrMoreRun p rule fuel pos ≠ .fail p3 := by
  intro fuel
  induction fuel with
  | zero => intro pos p3 h; exact PRes.noConfusion h
  | succ fuel ih =>
    intro pos p3
    simp only [nOrMoreRun]
    cases hp : p rule pos with
    | ok val p2 =>
      dsimp only
      cases hr : nOrMoreRun p rule fuel p2 with
      | ok l p4 => simp
      | fail p4 => exact absurd hr (ih p2 p4)
      | abort => simp
    | fail p2 => simp
    | abort => simp

/-- A successful `nOrMore` loop never moves the cursor backward. -/
lemma nOrMoreRun_ok_le (p : Parser JSVal) (rule : List Char) (hwf : Wf p) :
    ∀ fuel pos l p2, nOrMoreRun p rule fuel pos = .ok l p2 → pos ≤ p2 := by
  intro fuel
  induction fuel with
  | zero => intro pos l p2 h; exact PRes.noConfusion h
  | succ fuel ih =>
    intro pos l p2 h
    have hp := hwf rule pos
    simp only [nOrMoreRun] at h
    cases hq : p rule pos with
    | ok val p3 =>
      rw [hq] at h hp
      rw [cursorOk_ok] at hp
      dsimp only at h
      cases hr : nOrMoreRun p rule fuel p3 with
      | ok l2 p4 =>
        rw [hr] at h
        dsimp only at h
        simp only [PRes.ok.injEq] at h
        exact le_trans hp (h.2 ▸ ih p3 l2 p4 hr)
      | fail p4 => exact absurd hr (nOrMoreRun_ne_fail p rule fuel p3 p4)
      | abort => rw [hr] at h; exact PRes.noConfusion h
    | fail p3 =>
      rw [hq] at h hp
      rw [cursorOk_fail] at hp
      dsimp only at h
      simp only [PRes.ok.injEq] at h
      exact le_of_eq (hp ▸ h.2.symm).symm
    | abort => rw [hq] at h; exact PRes.noConfusion h

/-- C8 — cursor discipline of the two eager combinators: whenever the
sub-parsers respect the cursor contract, a successful `sequence` or
`nOrMore` ends at or beyond its starting cursor, and a failing one
restores the cursor exactly to its pre-attempt value (`sequence` fails
when any sub-parser fails; `nOrMore` when fewer than the minimum
repetitions succeed). -/
theorem c8_cursor_invariant :
    (∀ (ps : List (Parser JSVal)) (rule : List Char) (pos : Nat),
        (∀ p ∈ ps, Wf p) → CursorOk pos (sequence ps rule pos)) ∧
      (∀ (fuel nmin : Nat) (p : Parser JSVal) (rule : List Char) (pos : Nat),
        Wf p → CursorOk pos (nOrMore fuel nmin p rule pos)) := by
  constructor
  · intro ps rule pos h
    exact seqGo_cursorOk rule pos ps pos h le_rfl
  · intro fuel nmin p rule pos hwf
    simp only [nOrMore]
    cases hr : nOrMoreRun p rule fuel pos with
    | ok l p2 =>
      by_cases hn : l.length < nmin
      · simp [hn, CursorOk]
      · simp only [hn, if_false]
        exact nOrMoreRun_ok_le p rule hwf fuel pos l p2 hr
    | fail p2 => exact absurd hr (nOrMoreRun_ne_fail p rule fuel pos p2)
    | abort => exact trivial

theorem c8_cursor_invariant_witness :
    CursorOk 0 (sequence [_n_] ['n'] 0) ∧ CursorOk 0 (nOrMore 3 0 _n_ ['n'] 0) :=
  ⟨c8_cursor_invariant.1 [_n_] ['n'] 0
      (fun p hp => by
        rw [List.mem_singleton] at hp
        exact hp ▸ wf_makeStringParser ['n']),
    c8_cursor_invariant.2 3 0 _n_ ['n'] 0 (wf_makeStringParser ['n'])⟩

/-! ## The `within` relation (claim C6) -/

lemma bool_if_xor (c e : Bool) : (if c = true then !e else e) = Bool.xor c e := by
  cases c <;> cases e <;> rfl

/-- C6 — whenever `within` parses successfully, its value is the boolean
`first ≤ x < last` — computed from the *first and last listed elements* of
the parsed range list, not a min/max — negated exactly when a `not`
keyword was parsed; the expression value `x` ranges over all rationals, so
non-integer values are admitted by the containment test. -/
theorem c6_within_half_open_interval (number xq aq bq : ℚ) (fu : Nat)
    (rule : List Char) (pos p2 : Nat) (nots rl : List JSVal) (w1 w2 w3 : JSVal)
    (h : sequence [expression number, nOrMore fu 0 not, whitespace, _within_,
        whitespace, rangeList fu] rule pos =
      .ok [.num (some xq), .arr nots, w1, w2, w3, .arr rl] p2)
    (hlo : jsParseInt (jsIdx rl 0) = some aq)
    (hhi : jsParseInt (jsIdx rl (rl.length - 1)) = some bq) :
    within number fu rule pos =
      .ok (.bool (Bool.xor (decide (aq ≤ xq ∧ xq < bq))
        (jsStrictEq (jsIdx nots 0) (.str ("not".data))))) p2 := by
  unfold within
  rw [h]
  dsimp only [pmap]
  simp only [jsIdx, jsToArr, List.getD_cons_zero, List.getD_cons_succ]
  simp only [jsIdx] at hlo hhi
  rw [hlo, hhi]
  simp only [jsGE, jsLT, Bool.decide_and]
  rw [bool_if_xor]

theorem c6_within_half_open_interval_witness :
    within (5 / 2) 20 (("n within 0..5").data) 0 =
      .ok (.bool (Bool.xor (decide ((0 : ℚ) ≤ 5 / 2 ∧ (5 / 2 : ℚ) < 5))
        (jsStrictEq (jsIdx ([] : List JSVal) 0) (.str ("not".data))))) 13 :=
  c6_within_half_open_interval (5 / 2) (5 / 2) 0 5 20 (("n within 0..5").data) 0 13
    [] [.num (some 0), .num (some 1), .num (some 2), .num (some 3), .num (some 4),
      .num (some 5)]
    (.str [' ']) (.str ("within".data)) (.str [' '])
    (by with_unfolding_all rfl) (by with_unfolding_all rfl) (by with_unfolding_all rfl)

/-! ## Inversion lemmas for the range-list grammar (claim C7) -/

lemma makeStringParser_ok (s rule : List Char) (pos p2 : Nat) (val : JSVal)
    (h : makeStringParser s rule pos = .ok val p2) :
    val = .str s ∧ p2 = pos + s.length := by
  revert h
  unfold makeStringParser
  split
  · intro h
    simp only [PRes.ok.injEq] at h
    exact ⟨h.1.symm, h.2.symm⟩
  · intro h; exact PRes.noConfusion h

lemma makeStringParser_fail (s rule : List Char) (pos p2 : Nat)
    (h : makeStringParser s rule pos = .fail p2) : p2 = pos := by
  revert h
  unfold makeStringParser
  split
  · intro h; exact PRes.noConfusion h
  · intro h
    simp only [PRes.fail.injEq] at h
    exact h.symm

lemma makeRegexParser_fail (cls : Char → Bool) (rule : List Char) (pos p2 : Nat)
    (h : makeRegexParser cls rule pos = .fail p2) : p2 = pos := by
  revert h
  unfold makeRegexParser
  split
  · intro h
    simp only [PRes.fail.injEq] at h
    exact h.symm
  · intro h; exact PRes.noConfusion h

/-- A two-parser `sequence` succeeds exactly through both sub-parsers in
order, collecting both values. -/
lemma sequence_two_ok (pa pb : Parser JSVal) (rule : List Char) (pos p2 : Nat)
    (ls : List JSVal) (h : sequence [pa, pb] rule pos = .ok ls p2) :
    ∃ v1 pm v2, pa rule pos = .ok v1 pm ∧ pb rule pm = .ok v2 p2 ∧ ls = [v1, v2] := by
  simp only [sequence, seqGo] at h
  cases ha : pa rule pos with
  | ok v1 pm =>
    rw [ha] at h
    dsimp only at h
    cases hb : pb rule pm with
    | ok v2 p3 =>
      rw [hb] at h
      dsimp only at h
      simp only [PRes.ok.injEq] at h
      exact ⟨v1, pm, v2, rfl, h.2 ▸ hb, h.1.symm⟩
    | fail p3 => rw [hb] at h; exact PRes.noConfusion h
    | abort => rw [hb] at h; exact PRes.noConfusion h
  | fail pm => rw [ha] at h; exact PRes.noConfusion h
  | abort => rw [ha] at h; exact PRes.noConfusion h

/-- A two-parser `sequence` fails only when a sub-parser fails, and then
restores the entry cursor. -/
lemma sequence_two_fail (pa pb : Parser JSVal) (rule : List Char) (pos p2 : Nat)
    (h : sequence [pa, pb] rule pos = .fail p2) :
    p2 = pos ∧ ((∃ p3, pa rule pos = .fail p3) ∨
      (∃ v1 pm p3, pa rule pos = .ok v1 pm ∧ pb rule pm = .fail p3)) := by
  simp only [sequence, seqGo] at h
  cases ha : pa rule pos with
  | ok v1 pm =>
    rw [ha] at h
    dsimp only at h
    cases hb : pb rule pm with
    | ok v2 p3 => rw [hb] at h; exact PRes.noConfusion h
    | fail p3 =>
      rw [hb] at h
      dsimp only at h
      simp only [PRes.fail.injEq] at h
      exact ⟨h.symm, Or.inr ⟨v1, pm, p3, rfl, hb⟩⟩
    | abort => rw [hb] at h; exact PRes.noConfusion h
  | fail pm =>
    rw [ha] at h
    dsimp only at h
    simp only [PRes.fail.injEq] at h
    exact ⟨h.symm, Or.inl ⟨pm, rfl⟩⟩
  | abort => rw [ha] at h; exact PRes.noConfusion h

/-- `seqGo` fails only with the recorded entry cursor. -/
lemma seqGo_fail (rule : List Char) (orig : Nat) :
    ∀ (ps : List (Parser JSVal)) (q p2 : Nat), seqGo rule orig ps q = .fail p2 → p2 = orig := by
  intro ps
  induction ps with
  | nil => intro q p2 h; exact PRes.noConfusion h
  | cons p rest ih =>
    intro q p2
    simp only [seqGo]
    cases hp : p rule q with
    | ok val q2 =>
      dsimp only
      cases hr : seqGo rule orig rest q2 with
      | ok l q3 => intro h; exact PRes.noConfusion h
      | fail q3 => intro h; simp only [PRes.fail.injEq] at h; exact h.symm
      | abort => intro h; exact PRes.noConfusion h
    | fail q2 => intro h; simp only [PRes.fail.injEq] at h; exact h.symm
    | abort => intro h; exact PRes.noConfusion h

/-- A failing `sequence` restores the entry cursor. -/
lemma sequence_fail_restore (ps : List (Parser JSVal)) (rule : List Char)
    (pos p2 : Nat) (h : sequence ps rule pos = .fail p2) : p2 = pos :=
  seqGo_fail rule pos ps pos p2 h

/-- A failing `range` restores the entry cursor. -/
lemma range_fail (rule : List Char) (pos p2 : Nat)
    (h : range rule pos = .fail p2) : p2 = pos := by
  revert h
  unfold range pmap
  cases hs : sequence [value, _range_, value] rule pos with
  | ok l p4 => intro h; exact PRes.noConfusion h
  | fail p4 =>
    intro h
    simp only [PRes.fail.injEq] at h
    exact h.symm ▸ sequence_fail_restore _ rule pos p4 hs
  | abort => intro h; exact PRes.noConfusion h

/-- The item production `choice([range, value])` restores the cursor on
failure. -/
lemma item_fail (rule : List Char) (pos p2 : Nat)
    (h : choice [range, value] rule pos = .fail p2) : p2 = pos := by
  simp only [choice] at h
  cases hr : range rule pos with
  | ok val p3 => rw [hr] at h; exact PRes.noConfusion h
  | fail p3 =>
    rw [hr] at h
    dsimp only at h
    cases hv : value rule p3 with
    | ok val p4 => rw [hv] at h; exact PRes.noConfusion h
    | fail p4 =>
      rw [hv] at h
      dsimp only at h
      simp only [PRes.fail.injEq] at h
      have h1 := range_fail rule pos p3 hr
      have h2 := makeRegexParser_fail Char.isDigit rule p3 p4 hv
      omega
    | abort => rw [hv] at h; exact PRes.noConfusion h
  | abort => rw [hr] at h; exact PRes.noConfusion h

lemma pmap_ok (fn : List JSVal → JSVal) (r : PRes (List JSVal)) (val : JSVal)
    (p2 : Nat) (h : pmap fn r = .ok val p2) : ∃ l, r = .ok l p2 ∧ val = fn l := by
  cases r with
  | ok l p3 =>
    simp only [pmap, PRes.ok.injEq] at h
    exact ⟨l, h.2 ▸ rfl, h.1.symm⟩
  | fail p3 => exact PRes.noConfusion h
  | abort => exact PRes.noConfusion h

lemma pmap_fail (fn : List JSVal → JSVal) (r : PRes (List JSVal)) (p2 : Nat)
    (h : pmap fn r = .fail p2) : r = .fail p2 := by
  cases r with
  | ok l p3 => exact PRes.noConfusion h
  | fail p3 => simp only [pmap, PRes.fail.injEq] at h; rw [h]
  | abort => exact PRes.noConfusion h

/-- An `nOrMore` with minimum zero never fails. -/
lemma nOrMore_zero_ne_fail (fuel : Nat) (p : Parser JSVal) (rule : List Char)
    (pos p2 : Nat) : nOrMore fuel 0 p rule pos ≠ .fail p2 := by
  unfold nOrMore
  cases hr : nOrMoreRun p rule fuel pos with
  | ok l p3 => simp
  | fail p3 => exact absurd hr (nOrMoreRun_ne_fail p rule fuel pos p3)
  | abort => simp

/-- Inversion of a successful `nOrMore`: its value is the collected array
and the loop ran to the sub-parser's final failure. -/
lemma nOrMore_ok (fuel nmin : Nat) (p : Parser JSVal) (rule : List Char)
    (pos p2 : Nat) (val : JSVal) (h : nOrMore fuel nmin p rule pos = .ok val p2) :
    ∃ L, val = .arr L ∧ nOrMoreRun p rule fuel pos = .ok L p2 := by
  unfold nOrMore at h
  cases hr : nOrMoreRun p rule fuel pos with
  | ok l p3 =>
    rw [hr] at h
    dsimp only at h
    by_cases hn : l.length < nmin
    · rw [if_pos hn] at h; exact PRes.noConfusion h
    · rw [if_neg hn] at h
      simp only [PRes.ok.injEq] at h
      exact ⟨l, h.1.symm, by rw [h.2]⟩
  | fail p3 => rw [hr] at h; exact PRes.noConfusion h
  | abort => rw [hr] at h; exact PRes.noConfusion h

/-- A loop that collected nothing stopped on an immediate failure. -/
lemma nOrMoreRun_nil (p : Parser JSVal) (rule : List Char) (fuel pos pe : Nat)
    (h : nOrMoreRun p rule fuel pos = .ok [] pe) : p rule pos = .fail pe := by
  cases fuel with
  | zero => exact PRes.noConfusion h
  | succ fuel =>
    simp only [nOrMoreRun] at h
    cases hp : p rule pos with
    | ok val p3 =>
      rw [hp] at h
      dsimp only at h
      cases hr : nOrMoreRun p rule fuel p3 with
      | ok l p4 =>
        rw [hr] at h
        simp at h
      | fail p4 => rw [hr] at h; exact PRes.noConfusion h
      | abort => rw [hr] at h; exact PRes.noConfusion h
    | fail p3 =>
      rw [hp] at h
      dsimp only at h
      simp only [PRes.ok.injEq] at h
      rw [h.2]
    | abort => rw [hp] at h; exact PRes.noConfusion h

/-- A loop that collected a first value started with a success of the
sub-parser and continued as a shorter loop. -/
lemma nOrMoreRun_cons (p : Parser JSVal) (rule : List Char) (fuel pos pe : Nat)
    (t1 : JSVal) (rest : List JSVal)
    (h : nOrMoreRun p rule fuel pos = .ok (t1 :: rest) pe) :
    ∃ fuel2 p1, fuel = fuel2 + 1 ∧ p rule pos = .ok t1 p1 ∧
      nOrMoreRun p rule fuel2 p1 = .ok rest pe := by
  cases fuel with
  | zero => exact PRes.noConfusion h
  | succ fuel =>
    simp only [nOrMoreRun] at h
    cases hp : p rule pos with
    | ok val p3 =>
      rw [hp] at h
      dsimp only at h
      cases hr : nOrMoreRun p rule fuel p3 with
      | ok l p4 =>
        rw [hr] at h
        simp only [PRes.ok.injEq, List.cons.injEq] at h
        exact ⟨fuel, p3, rfl, by rw [h.1.1], by rw [hr, h.1.2, h.2]⟩
      | fail p4 => rw [hr] at h; exact PRes.noConfusion h
      | abort => rw [hr] at h; exact PRes.noConfusion h
    | fail p3 =>
      rw [hp] at h
      dsimp only at h
      simp only [PRes.ok.injEq] at h
      exact absurd h.1 (List.cons_ne_nil t1 rest).symm
    | abort => rw [hp] at h; exact PRes.noConfusion h

/-- The loop exits exactly where the sub-parser finally fails; for a
sub-parser that restores the cursor on failure, the sub-parser therefore
fails at the exit position. -/
lemma nOrMoreRun_exit (p : Parser JSVal) (rule : List Char)
    (hfp : ∀ q p3, p rule q = .fail p3 → p3 = q) :
    ∀ fuel pos L pe, nOrMoreRun p rule fuel pos = .ok L pe → p rule pe = .fail pe := by
  intro fuel
  induction fuel with
  | zero => intro pos L pe h; exact PRes.noConfusion h
  | succ fuel ih =>
    intro pos L pe h
    simp only [nOrMoreRun] at h
    cases hp : p rule pos with
    | ok val p3 =>
      rw [hp] at h
      dsimp only at h
      cases hr : nOrMoreRun p rule fuel p3 with
      | ok l p4 =>
        rw [hr] at h
        simp only [PRes.ok.injEq] at h
        exact h.2 ▸ ih p3 l p4 hr
      | fail p4 => rw [hr] at h; exact PRes.noConfusion h
      | abort => rw [hr] at h; exact PRes.noConfusion h
    | fail p3 =>
      rw [hp] at h
      dsimp only at h
      simp only [PRes.ok.injEq] at h
      have h3 := hfp pos p3 hp
      obtain ⟨-, h2⟩ := h
      have hpe : pe = pos := by omega
      rw [hpe, hp, h3]
    | abort => rw [hp] at h; exact PRes.noConfusion h

/-- Unfolding `rangeList` at positive fuel, with the inline tail lambda
recognised as `rangeTail`. -/
lemma rangeList_succ (fu : Nat) : rangeList (fu + 1) = fun rule pos =>
    match sequence [choice [range, value], nOrMore (fu + 1) 0 (rangeTail fu)]
        rule pos with
    | .ok l p2 =>
      let resultList := jsConcat [] (jsIdx l 0)
      let tail := jsIdxV (jsIdx l 1) 0
      .ok (.arr (if jsTruthy tail then jsConcat resultList tail else resultList)) p2
    | .fail p2 => .fail p2
    | .abort => .abort := rfl

/-- A successful `rangeList` always carries an array value. -/
lemma rangeList_ok_shape (fu : Nat) (rule : List Char) (pos p2 : Nat) (val : JSVal)
    (h : rangeList fu rule pos = .ok val p2) : ∃ l, val = .arr l := by
  cases fu with
  | zero => exact PRes.noConfusion h
  | succ fu =>
    rw [rangeList_succ] at h
    dsimp only at h
    cases hs : sequence [choice [range, value], nOrMore (fu + 1) 0 (rangeTail fu)]
        rule pos with
    | ok l p3 =>
      rw [hs] at h
      dsimp only at h
      simp only [PRes.ok.injEq] at h
      exact ⟨_, h.1.symm⟩
    | fail p3 => rw [hs] at h; exact PRes.noConfusion h
    | abort => rw [hs] at h; exact PRes.noConfusion h

/-- A failing `rangeList` restores the cursor and pins the failure on the
item production (the `nOrMore(0, ·)` tail can never fail). -/
lemma rangeList_fail_elim (fu : Nat) (rule : List Char) (pos p2 : Nat)
    (h : rangeList fu rule pos = .fail p2) :
    p2 = pos ∧ choice [range, value] rule pos = .fail pos := by
  cases fu with
  | zero => exact PRes.noConfusion h
  | succ fu =>
    rw [rangeList_succ] at h
    dsimp only at h
    cases hs : sequence [choice [range, value], nOrMore (fu + 1) 0 (rangeTail fu)]
        rule pos with
    | ok l p3 => rw [hs] at h; exact PRes.noConfusion h
    | fail p3 =>
      rw [hs] at h
      simp only [PRes.fail.injEq] at h
      obtain ⟨hrestore, hcases⟩ := sequence_two_fail _ _ rule pos p3 hs
      rcases hcases with ⟨p4, hitem⟩ | ⟨v1, pm, p4, hok, hnom⟩
      · have := item_fail rule pos p4 hitem
        subst this
        exact ⟨by omega, hitem⟩
      · exact absurd hnom (nOrMore_zero_ne_fail (fu + 1) (rangeTail fu) rule pm p4)
    | abort => rw [hs] at h; exact PRes.noConfusion h

/-- A `rangeList` failure is independent of the fuel: any positive fuel
fails identically (failure is exactly an item failure at the head). -/
lemma rangeList_fail_lift (fu fu2 : Nat) (rule : List Char) (pos p2 : Nat)
    (h : rangeList fu rule pos = .fail p2) :
    rangeList (fu2 + 1) rule pos = .fail p2 := by
  obtain ⟨hp2, hitem⟩ := rangeList_fail_elim fu rule pos p2 h
  have hs : sequence [choice [range, value], nOrMore (fu2 + 1) 0 (rangeTail fu2)]
      rule pos = .fail pos := by
    simp only [sequence, seqGo]
    rw [hitem]
  rw [rangeList_succ]
  dsimp only
  rw [hs, hp2]

/-- A failing `rangeTail` restores the cursor. -/
lemma rangeTail_fail_restore (g : Nat) (rule : List Char) (pos p2 : Nat)
    (h : rangeTail g rule pos = .fail p2) : p2 = pos := by
  unfold rangeTail at h
  exact sequence_fail_restore _ rule pos p2 (pmap_fail _ _ p2 h)

/-- A `rangeTail` failure lifts to any positive fuel: either the comma is
missing, or the inner `rangeList` fails, and both are fuel-independent. -/
lemma rangeTail_fail_lift (g g2 : Nat) (rule : List Char) (pos p2 : Nat)
    (h : rangeTail g rule pos = .fail p2) :
    rangeTail (g2 + 1) rule pos = .fail p2 := by
  have hp2 := rangeTail_fail_restore g rule pos p2 h
  unfold rangeTail at h ⊢
  have hseq := pmap_fail _ _ p2 h
  rw [hp2] at hseq
  obtain ⟨-, hcases⟩ := sequence_two_fail _ _ rule pos pos hseq
  rcases hcases with ⟨p3, hcomma⟩ | ⟨v1, pm, p3, hcomma, hrl⟩
  · have hs : sequence [_comma_, rangeList (g2 + 1)] rule pos = .fail pos := by
      simp only [sequence, seqGo]
      rw [hcomma]
    rw [hs]
    dsimp only [pmap]
    rw [hp2]
  · have hrl2 := rangeList_fail_lift g g2 rule pm p3 hrl
    have hs : sequence [_comma_, rangeList (g2 + 1)] rule pos = .fail pos := by
      simp only [sequence, seqGo]
      rw [hcomma]
      dsimp only
      rw [hrl2]
    rw [hs]
    dsimp only [pmap]
    rw [hp2]

/-- Inversion of a successful `rangeTail`: a comma then an inner
`rangeList`, whose value is passed through. -/
lemma rangeTail_ok (g : Nat) (rule : List Char) (pos pe : Nat) (tv : JSVal)
    (h : rangeTail g rule pos = .ok tv pe) :
    _comma_ rule pos = .ok (.str [',']) (pos + 1) ∧
      rangeList g rule (pos + 1) = .ok tv pe := by
  unfold rangeTail at h
  obtain ⟨ls, hseq, hval⟩ := pmap_ok _ _ tv pe h
  obtain ⟨v1, pm, v2, hcomma, hrl, hls⟩ := sequence_two_ok _ _ rule pos pe ls hseq
  obtain ⟨hv1, hpm⟩ := makeStringParser_ok [','] rule pos pm v1 hcomma
  subst hv1 hls
  have h1 : pm = pos + 1 := hpm
  subst h1
  refine ⟨hcomma, ?_⟩
  have : tv = v2 := by rw [hval]; rfl
  rw [this]
  exact hrl

/-! ## The range-list value as a flat encounter-order concatenation -/

/-- A parse of comma-separated range-list items from one cursor position
to another, together with the flat encounter-order concatenation of their
contributions: an item is `choice([range, value])`, a range item's parsed
value is the expanded array (flattened by `concat`), a bare value
contributes itself. -/
inductive RLChain (rule : List Char) : Nat → List JSVal → Nat → Prop where
  | single {pos p1 : Nat} {v : JSVal}
      (h : choice [range, value] rule pos = .ok v p1) :
      RLChain rule pos (jsConcat [] v) p1
  | cons {pos p1 pe : Nat} {v : JSVal} {tl : List JSVal}
      (h : choice [range, value] rule pos = .ok v p1)
      (hc : _comma_ rule p1 = .ok (.str [',']) (p1 + 1))
      (htl : RLChain rule (p1 + 1) tl pe) :
      RLChain rule pos (jsConcat [] v ++ tl) pe

lemma jsConcat_arr (l a : List JSVal) : jsConcat l (.arr a) = l ++ a := rfl

/-- Every successful `rangeList` value is the flat, encounter-order
concatenation of the comma-separated items the parse consumed, ending
exactly at the parse's final cursor. -/
lemma rangeList_chain : ∀ (fu : Nat) (rule : List Char) (pos : Nat)
    (l : List JSVal) (p2 : Nat),
    rangeList fu rule pos = .ok (.arr l) p2 → RLChain rule pos l p2 := by
  intro fu
  induction fu with
  | zero => intro rule pos l p2 h; exact PRes.noConfusion h
  | succ fu ih =>
    intro rule pos l p2 h
    rw [rangeList_succ] at h
    dsimp only at h
    cases hs : sequence [choice [range, value], nOrMore (fu + 1) 0 (rangeTail fu)]
        rule pos with
    | fail p3 => rw [hs] at h; exact PRes.noConfusion h
    | abort => rw [hs] at h; exact PRes.noConfusion h
    | ok ls p3 =>
      rw [hs] at h
      dsimp only at h
      simp only [PRes.ok.injEq, JSVal.arr.injEq] at h
      obtain ⟨hval, hp3⟩ := h
      obtain ⟨v1, pm, v2, hitem, hnom, hls⟩ := sequence_two_ok _ _ rule pos p3 ls hs
      subst hls
      obtain ⟨L, hv2, hrun⟩ := nOrMore_ok (fu + 1) 0 (rangeTail fu) rule pm p3 v2 hnom
      subst hv2
      simp only [jsIdx, jsIdxV, List.getD_cons_zero, List.getD_cons_succ] at hval
      cases L with
      | nil =>
        have hfail := nOrMoreRun_nil (rangeTail fu) rule (fu + 1) pm p3 hrun
        have hpm := rangeTail_fail_restore fu rule pm p3 hfail
        simp only [List.getD_nil, jsTruthy, Bool.false_eq_true, if_false] at hval
        subst hval
        subst hp3
        rw [hpm]
        exact RLChain.single hitem
      | cons t1 rest =>
        obtain ⟨fuel2, pt1, hfu2, hfirst, hrun2⟩ :=
          nOrMoreRun_cons (rangeTail fu) rule (fu + 1) pm p3 t1 rest hrun
        have hfuel2 : fuel2 = fu := by omega
        rw [hfuel2] at hrun2
        obtain ⟨hcomma, hinner⟩ := rangeTail_ok fu rule pm pt1 t1 hfirst
        obtain ⟨l1, ht1⟩ := rangeList_ok_shape fu rule (pm + 1) pt1 t1 hinner
        subst ht1
        cases rest with
        | cons t2 rest2 =>
          obtain ⟨f3, pt2, -, hsecond, -⟩ :=
            nOrMoreRun_cons (rangeTail fu) rule fu pt1 p3 t2 rest2 hrun2
          cases fu with
          | zero => exact PRes.noConfusion hinner
          | succ g =>
            rw [rangeList_succ] at hinner
            dsimp only at hinner
            cases hs2 : sequence [choice [range, value],
                nOrMore (g + 1) 0 (rangeTail g)] rule (pm + 1) with
            | fail p4 => rw [hs2] at hinner; exact PRes.noConfusion hinner
            | abort => rw [hs2] at hinner; exact PRes.noConfusion hinner
            | ok ls2 p4 =>
              rw [hs2] at hinner
              dsimp only at hinner
              simp only [PRes.ok.injEq] at hinner
              obtain ⟨-, hp4⟩ := hinner
              obtain ⟨w1, pm2, w2, -, hnom2, -⟩ :=
                sequence_two_ok _ _ rule (pm + 1) p4 ls2 hs2
              obtain ⟨L2, -, hrun3⟩ :=
                nOrMore_ok (g + 1) 0 (rangeTail g) rule pm2 p4 w2 hnom2
              have hexit := nOrMoreRun_exit (rangeTail g) rule
                (fun q p5 hf => rangeTail_fail_restore g rule q p5 hf)
                (g + 1) pm2 L2 p4 hrun3
              rw [hp4] at hexit
              have hlift := rangeTail_fail_lift g g rule pt1 pt1 hexit
              rw [hlift] at hsecond
              exact PRes.noConfusion hsecond
        | nil =>
          have hfail := nOrMoreRun_nil (rangeTail fu) rule fu pt1 p3 hrun2
          have hpt1 := rangeTail_fail_restore fu rule pt1 p3 hfail
          simp only [List.getD_cons_zero, jsTruthy, if_true] at hval
          rw [jsConcat_arr] at hval
          subst hval
          subst hp3
          rw [hpt1]
          exact RLChain.cons hitem hcomma (ih rule (pm + 1) l1 pt1 hinner)

/-- Closed form of the `range` expansion loop on integer bounds: the
inclusive sequence from `a` to `b`, empty when `a > b`. -/
lemma jsRangeForAux_eq (k : Nat) : ∀ a : ℚ,
    jsRangeForAux k a = (List.range k).map (fun j => a + (j : ℕ)) := by
  induction k with
  | zero => intro a; simp [jsRangeForAux]
  | succ k ih =>
    intro a
    rw [jsRangeForAux, ih (a + 1), List.range_succ_eq_map, List.map_cons,
      List.map_map]
    congr 1
    · simp
    · apply List.map_congr_left
      intro j hj
      simp only [Function.comp_apply]
      push_cast
      ring

/-- C7 — a successful `range_list` parse yields the flat, encounter-order
concatenation of its comma-separated items (`RLChain`), and the `range`
expansion loop on integer bounds `a..b` produces exactly the inclusive
sequence `a, a+1, ..., b` — the empty sequence when `a > b` — and in
particular always terminates normally. -/
theorem c7_range_list_concat :
    (∀ (fu : Nat) (rule : List Char) (pos : Nat) (l : List JSVal) (p2 : Nat),
        rangeList fu rule pos = .ok (.arr l) p2 → RLChain rule pos l p2) ∧
      (∀ a b : ℤ, jsRangeForQ (a : ℚ) (b : ℚ) =
        if a ≤ b then
          (List.range (b + 1 - a).toNat).map (fun k => ((a : ℚ) + (k : ℕ)))
        else []) := by
  constructor
  · exact rangeList_chain
  · intro a b
    unfold jsRangeForQ
    rw [jsRangeForAux_eq]
    have hfloor : ⌊(b : ℚ) - (a : ℚ)⌋ = b - a := by
      rw [← Int.cast_sub, Int.floor_intCast]
    rw [hfloor]
    by_cases hab : a ≤ b
    · rw [if_pos hab]
      congr 2
      omega
    · rw [if_neg hab]
      have hz : (b - a + 1).toNat = 0 := by omega
      rw [hz]
      simp

theorem c7_range_list_concat_witness : RLChain (("5..2,7").data) 0 [.str ['7']] 6 :=
  c7_range_list_concat.1 8 (("5..2,7").data) 0 [.str ['7']] 6
    (by with_unfolding_all rfl)

end CLDR
